import Mathlib

/-!
Verification of the agent execution loop of `src/agent/executor.py`
(`AgentExecutor.run`, `AgentExecutor.arun`, `_get_tool_call_attr`,
`ExecutionResult`).

The executor's collaborators (`ConversationMemory`, `ToolRegistry`,
`Tool`, `ToolResult`, `Agent`/`AgentConfig`) are not part of the
sources available here; they are modelled from the design document
(see the doc comments marked `Modelled from the spec:`).  The executor
itself is transcribed statement by statement from `executor.py`; line
numbers in comments refer to that file.

Python-to-Lean conventions:
* exceptions are `Except String` values;
* a Python value that may be a `dict`, an attribute-bearing object, a
  string or `None` (the duck-typed tool-call payloads) is a `TCValue`;
* the run additionally returns a ghost event trace (`Event`) recording
  each model call (with the message list passed to it) and each actual
  tool-handler invocation; the trace never influences control flow.
-/

/-- Duck-typed tool-call payload values: Python `dict`s, attribute-bearing
objects, strings, and `None`.  (`vdict` mirrors `isinstance(value, dict)`;
everything that is not a dict is read with `getattr`.) -/
inductive TCValue where
  | vnone : TCValue
  | vstr (s : String) : TCValue
  | vdict (fields : List (String × TCValue)) : TCValue
  | vobj (fields : List (String × TCValue)) : TCValue
  deriving Repr

/-- One step of `_get_tool_call_attr`'s loop (executor.py lines 28-32):
`value.get(part)` on a dict, `getattr(value, part, None)` otherwise.
A string or `None` has none of the looked-up attributes, so the result
is `None` for those. -/
def getPart (v : TCValue) (part : String) : TCValue :=
  match v with
  | .vdict fs => (fs.lookup part).getD .vnone
  | .vobj fs => (fs.lookup part).getD .vnone
  | .vstr _ => .vnone
  | .vnone => .vnone

/-- Python `attr.split('.')` (executor.py line 26), transcribed at the
character level: split on every dot, keeping empty pieces. -/
def splitDotsAux : List Char → List Char → List String
  | [], acc => [String.mk acc.reverse]
  | c :: rest, acc =>
    if c = '.' then String.mk acc.reverse :: splitDotsAux rest []
    else splitDotsAux rest (c :: acc)

def splitDots (s : String) : List String := splitDotsAux s.toList []

/-- `_get_tool_call_attr` (executor.py lines 16-33): split the attribute
path on `.` and walk the payload, handling both dict and object formats. -/
def getToolCallAttr (tc : TCValue) (attr : String) : TCValue :=
  (splitDots attr).foldl getPart tc

/-- Python truthiness of a payload value: `None` and `""` and `{}` are
falsy; a non-empty dict and a non-empty string are truthy; a plain
object (no `__bool__`/`__len__`) is always truthy. -/
def truthy : TCValue → Bool
  | .vnone => false
  | .vstr s => !s.isEmpty
  | .vdict fs => !fs.isEmpty
  | .vobj _ => true

/-- Python `x or "function"` (executor.py line 213). -/
def pyOr (v : TCValue) (d : String) : TCValue :=
  if truthy v then v else .vstr d

/-- Rendering of a payload value inside an f-string (executor.py line 237).
On the payloads the executor is actually given, the rendered value is a
string and this is the identity; the other branches are the nominal
Python `str()` renderings (`str(None) = "None"`; dict/object reprs are
abbreviated, they carry no information the claims depend on). -/
def pyStrV : TCValue → String
  | .vstr s => s
  | .vnone => "None"
  | .vdict _ => "<dict>"
  | .vobj _ => "<object>"

/-- Modelled from the spec: Tool Result `{success, output?, error?, metadata}`
(§3); produced once per tool invocation, folded into the conversation. -/
structure ToolResult where
  success : Bool
  output : Option String := none
  error : Option String := none
  metadata : List (String × String) := []
  deriving Repr

/-- Modelled from the spec: a Tool Capability's synchronous and
asynchronous execution paths (§3, §6).  A raised exception is the
`Except.error` branch (the spec says handlers must not raise for
expected failures, but the executor's behaviour when they do is under
test, so the model keeps the possibility). -/
structure Tool where
  execute : TCValue → Except String ToolResult
  aexecute : TCValue → Except String ToolResult

/-- The normalized tool-call dict the executor rebuilds for the
assistant message (executor.py lines 210-220).  Field `type` has
already been through `or "function"`. -/
structure NormTC where
  id : TCValue
  type : TCValue
  fname : TCValue
  fargs : TCValue
  deriving Repr

/-- Normalization of one tool-call payload (executor.py lines 211-218). -/
def normalizeTC (tc : TCValue) : NormTC :=
  { id := getToolCallAttr tc "id"
  , type := pyOr (getToolCallAttr tc "type") "function"
  , fname := getToolCallAttr tc "function.name"
  , fargs := getToolCallAttr tc "function.arguments" }

/-- Messages, both in Conversation Memory and in the ad-hoc `messages`
list the executor sends to the model.  `assistant` is the
tool-call-carrying dict of executor.py line 207; `assistantText` is the
final-answer assistant message stored in memory (line 189); `tool` is
the tool-result message (lines 257-262). -/
inductive Message where
  | system (content : String) : Message
  | user (content : String) : Message
  | assistant (content : Option String) (tool_calls : List NormTC) : Message
  | assistantText (content : String) : Message
  | tool (tool_call_id : TCValue) (name : TCValue) (content : String) : Message
  deriving Repr

/-- Modelled from the spec: Conversation Memory, a bounded ordered
message window (§3).  The eviction policy of the bound is not given by
the spec; the model keeps the full journal (none of the properties
proved here depend on eviction). -/
structure Memory where
  window_size : Nat
  msgs : List Message
  deriving Repr

def Memory.addSystem (m : Memory) (content : String) : Memory :=
  { m with msgs := m.msgs ++ [Message.system content] }

def Memory.addUser (m : Memory) (content : String) : Memory :=
  { m with msgs := m.msgs ++ [Message.user content] }

def Memory.addAssistant (m : Memory) (content : String) : Memory :=
  { m with msgs := m.msgs ++ [Message.assistantText content] }

def Memory.addTool (m : Memory) (content : String) (name : TCValue)
    (tool_call_id : TCValue) : Memory :=
  { m with msgs := m.msgs ++ [Message.tool tool_call_id name content] }

/-- Returns the stored window as a fresh list: the executor appends to
the returned list and separately calls the add methods, so the two must
not alias (value semantics here make that automatic). -/
def Memory.getMessages (m : Memory) : List Message := m.msgs

/-- The agent configuration fields the executor reads (`base.py` is not
in the sources; fields and defaults follow the uses in executor.py and
the spec §4.2).  `max_iterations` is a Python `int`, hence `Int`:
nothing in the code keeps it positive. -/
structure AgentConfig where
  provider : String
  system_prompt : String
  tools : List String
  max_iterations : Int
  enable_memory : Bool
  deriving Repr

/-- The model collaborator's response as the executor reads it
(`response.choices[0].message`, `.finish_reason`, `response.model`).
`content = none` models the attribute being absent (the `getattr`
defaults on lines 187 and 209); an empty `tool_calls` list covers both
`None` and `[]`, which executor.py line 185 treats alike (`if not
tool_calls`). -/
structure ModelResponse where
  content : Option String
  tool_calls : List TCValue
  finish_reason : String
  model : String
  deriving Repr

/-- The external collaborators of one executor run: the chat client's
synchronous and asynchronous entry points, the Tool Registry (`get` and
`get_tools_for_provider`, modelled from the spec §4.1: `get` on an
unknown name returns absent, `get_tools_for_provider` is a pure
projection), and `json.loads` on argument strings. -/
structure Env where
  chat : List Message → Option (List String) → Except String ModelResponse
  achat : List Message → Option (List String) → Except String ModelResponse
  getTool : String → Option Tool
  getToolsForProvider : String → List String
  jsonLoads : String → Except String TCValue

/-- Registry lookup keyed by the extracted tool name (executor.py line
232).  A registry is keyed by strings, so a non-string name is absent. -/
def getToolV (env : Env) : TCValue → Option Tool
  | .vstr s => env.getTool s
  | _ => none

/-- `json.loads(arguments)` (executor.py line 226): loading a non-string
raises a `TypeError`. -/
def loadsV (env : Env) : TCValue → Except String TCValue
  | .vstr s => env.jsonLoads s
  | _ => .error "the JSON object must be str, bytes or bytearray"

/-- `ExecutionResult` (executor.py lines 36-56).  A tool-call log entry
is the dict of lines 244-248. -/
structure LogEntry where
  tool : TCValue
  arguments : TCValue
  result : ToolResult
  deriving Repr

structure ExecutionResult where
  success : Bool
  output : String := ""
  iterations : Nat := 0
  tool_calls : List LogEntry := []
  error : Option String := none
  metadata : List (String × String) := []
  deriving Repr

/-- The f-string `f"Maximum iterations ({n}) reached"` (line 277). -/
def maxIterMsg (n : Int) : String :=
  "Maximum iterations (" ++ toString n ++ ") reached"

/-- The apostrophe character, for building the f-strings below. -/
def squote : String := String.mk [Char.ofNat 39]

/-- The f-string `f"Tool '{name}' not found in registry"` (line 237). -/
def toolNotFoundMsg (name : String) : String :=
  "Tool " ++ squote ++ name ++ squote ++ " not found in registry"

/-- `json.dumps({"success": ..., "output": ..., "error": ...})`
(executor.py lines 251-255).  String escaping inside values is not
modelled (no claim depends on it). -/
def jsonOptStr : Option String → String
  | some s => "\"" ++ s ++ "\""
  | none => "null"

def dumpsResult (r : ToolResult) : String :=
  "\x7b\"success\": " ++ (if r.success then "true" else "false")
    ++ ", \"output\": " ++ jsonOptStr r.output
    ++ ", \"error\": " ++ jsonOptStr r.error ++ "\x7d"

/-- Ghost trace events: one `modelCall` per chat-client invocation
(with the message list passed), one `toolExec` per actual tool-handler
invocation (a `ToolNotFound` synthesis is not a handler invocation). -/
inductive Event where
  | modelCall (messages : List Message) : Event
  | toolExec (name : String) (args : TCValue) : Event
  deriving Repr

/-- State threaded through the tool-execution for-loop (executor.py
lines 224-269): the `messages` list, the `tool_calls_log`, memory, the
ghost trace, and `failed = some e` once an exception has been raised
(the loop body short-circuits to the outer `except`). -/
structure ToolPhase where
  messages : List Message
  log : List LogEntry
  memory : Memory
  events : List Event
  failed : Option String := none
  deriving Repr

/-- The tool-execution for-loop of `run` (executor.py lines 224-269),
one tool call after the other, in the order the model returned them.
For each call: extract the name, `json.loads` the arguments (an
exception aborts), look the name up in the registry, synthesize a
failing `ToolResult` when absent or invoke `tool.execute` (an exception
aborts), then append the log entry, the tool message and — when memory
is enabled — the memory entry, and continue with the next call. -/
def execToolCallsSync (cfg : AgentConfig) (env : Env) :
    List TCValue → ToolPhase → ToolPhase
  | [], st => st
  | tc :: rest, st =>
    let tool_name := getToolCallAttr tc "function.name"
    match loadsV env (getToolCallAttr tc "function.arguments") with
    | .error e => { st with failed := some e }
    | .ok tool_args =>
      match getToolV env tool_name with
      | none =>
        let tool_result : ToolResult :=
          { success := false, error := some (toolNotFoundMsg (pyStrV tool_name)) }
        let result_content := dumpsResult tool_result
        execToolCallsSync cfg env rest
          { messages := st.messages ++
              [Message.tool (getToolCallAttr tc "id") tool_name result_content]
          , log := st.log ++ [{ tool := tool_name, arguments := tool_args, result := tool_result }]
          , memory := if cfg.enable_memory then
              st.memory.addTool result_content tool_name (getToolCallAttr tc "id")
            else st.memory
          , events := st.events
          , failed := none }
      | some tool =>
        match tool.execute tool_args with
        | .error e => { st with failed := some e }
        | .ok tool_result =>
          let result_content := dumpsResult tool_result
          execToolCallsSync cfg env rest
            { messages := st.messages ++
                [Message.tool (getToolCallAttr tc "id") tool_name result_content]
            , log := st.log ++ [{ tool := tool_name, arguments := tool_args, result := tool_result }]
            , memory := if cfg.enable_memory then
                st.memory.addTool result_content tool_name (getToolCallAttr tc "id")
              else st.memory
            , events := st.events ++ [Event.toolExec (pyStrV tool_name) tool_args]
            , failed := none }

/-- Same for-loop in `arun` (executor.py lines 382-428); the only
difference is `await tool.aexecute(**tool_args)` on line 400. -/
def execToolCallsAsync (cfg : AgentConfig) (env : Env) :
    List TCValue → ToolPhase → ToolPhase
  | [], st => st
  | tc :: rest, st =>
    let tool_name := getToolCallAttr tc "function.name"
    match loadsV env (getToolCallAttr tc "function.arguments") with
    | .error e => { st with failed := some e }
    | .ok tool_args =>
      match getToolV env tool_name with
      | none =>
        let tool_result : ToolResult :=
          { success := false, error := some (toolNotFoundMsg (pyStrV tool_name)) }
        let result_content := dumpsResult tool_result
        execToolCallsAsync cfg env rest
          { messages := st.messages ++
              [Message.tool (getToolCallAttr tc "id") tool_name result_content]
          , log := st.log ++ [{ tool := tool_name, arguments := tool_args, result := tool_result }]
          , memory := if cfg.enable_memory then
              st.memory.addTool result_content tool_name (getToolCallAttr tc "id")
            else st.memory
          , events := st.events
          , failed := none }
      | some tool =>
        match tool.aexecute tool_args with
        | .error e => { st with failed := some e }
        | .ok tool_result =>
          let result_content := dumpsResult tool_result
          execToolCallsAsync cfg env rest
            { messages := st.messages ++
                [Message.tool (getToolCallAttr tc "id") tool_name result_content]
            , log := st.log ++ [{ tool := tool_name, arguments := tool_args, result := tool_result }]
            , memory := if cfg.enable_memory then
                st.memory.addTool result_content tool_name (getToolCallAttr tc "id")
              else st.memory
            , events := st.events ++ [Event.toolExec (pyStrV tool_name) tool_args]
            , failed := none }

/-- What one run returns: the `ExecutionResult` plus the final memory,
the final `messages` list, and the ghost trace. -/
structure RunOut where
  result : ExecutionResult
  memory : Memory
  messages : List Message
  events : List Event
  deriving Repr

/-- The `while iteration < max_iterations` reasoning loop of `run`
(executor.py lines 163-278), as fuel recursion: the loop condition with
`iteration` increasing by exactly 1 per pass is equivalent to starting
with fuel `max_iterations.toNat`.  Each pass increments `iteration`,
calls the model (a raised exception returns the failed result of lines
282-288, keeping the current `iteration` and log), returns the success
result of lines 191-200 when the response has no tool calls, and
otherwise appends the assistant message (line 207) and runs the tool
loop.  Fuel 0 is the fall-through of lines 272-278. -/
def runLoop (cfg : AgentConfig) (env : Env) :
    Nat → Nat → Option (List String) → List Message → List LogEntry →
    Memory → List Event → RunOut
  | 0, iteration, _, messages, log, memory, events =>
    { result := { success := false, output := "", iterations := iteration
                , tool_calls := log, error := some (maxIterMsg cfg.max_iterations) }
    , memory := memory, messages := messages, events := events }
  | fuel + 1, iteration, tools?, messages, log, memory, events =>
    let iteration := iteration + 1
    let events := events ++ [Event.modelCall messages]
    match env.chat messages tools? with
    | .error e =>
      { result := { success := false, output := "", iterations := iteration
                  , tool_calls := log, error := some e }
      , memory := memory, messages := messages, events := events }
    | .ok response =>
      if response.tool_calls.isEmpty then
        let content := response.content.getD ""
        let memory := if cfg.enable_memory then memory.addAssistant content else memory
        { result := { success := true, output := content, iterations := iteration
                    , tool_calls := log
                    , metadata := [("finish_reason", response.finish_reason)
                                  , ("model", response.model)] }
        , memory := memory, messages := messages, events := events }
      else
        let messages := messages ++
          [Message.assistant response.content (response.tool_calls.map normalizeTC)]
        let ph := execToolCallsSync cfg env response.tool_calls
          { messages := messages, log := log, memory := memory, events := events }
        match ph.failed with
        | some e =>
          { result := { success := false, output := "", iterations := iteration
                      , tool_calls := ph.log, error := some e }
          , memory := ph.memory, messages := ph.messages, events := ph.events }
        | none =>
          runLoop cfg env fuel iteration tools? ph.messages ph.log ph.memory ph.events

/-- Same loop in `arun` (executor.py lines 322-437), calling
`env.achat` and the asynchronous tool loop. -/
def arunLoop (cfg : AgentConfig) (env : Env) :
    Nat → Nat → Option (List String) → List Message → List LogEntry →
    Memory → List Event → RunOut
  | 0, iteration, _, messages, log, memory, events =>
    { result := { success := false, output := "", iterations := iteration
                , tool_calls := log, error := some (maxIterMsg cfg.max_iterations) }
    , memory := memory, messages := messages, events := events }
  | fuel + 1, iteration, tools?, messages, log, memory, events =>
    let iteration := iteration + 1
    let events := events ++ [Event.modelCall messages]
    match env.achat messages tools? with
    | .error e =>
      { result := { success := false, output := "", iterations := iteration
                  , tool_calls := log, error := some e }
      , memory := memory, messages := messages, events := events }
    | .ok response =>
      if response.tool_calls.isEmpty then
        let content := response.content.getD ""
        let memory := if cfg.enable_memory then memory.addAssistant content else memory
        { result := { success := true, output := content, iterations := iteration
                    , tool_calls := log
                    , metadata := [("finish_reason", response.finish_reason)
                                  , ("model", response.model)] }
        , memory := memory, messages := messages, events := events }
      else
        let messages := messages ++
          [Message.assistant response.content (response.tool_calls.map normalizeTC)]
        let ph := execToolCallsAsync cfg env response.tool_calls
          { messages := messages, log := log, memory := memory, events := events }
        match ph.failed with
        | some e =>
          { result := { success := false, output := "", iterations := iteration
                      , tool_calls := ph.log, error := some e }
          , memory := ph.memory, messages := ph.messages, events := ph.events }
        | none =>
          arunLoop cfg env fuel iteration tools? ph.messages ph.log ph.memory ph.events

/-- Lines 141-144 (and 300-303): the user message is added to memory
only when memory is enabled. -/
def initMemory (cfg : AgentConfig) (user_input : String) (memory : Memory) : Memory :=
  if cfg.enable_memory then memory.addUser user_input else memory

/-- Lines 146-151 (and 305-310): `tools` stays `None` unless the config
lists tools; otherwise the registry renders them for the provider. -/
def initTools (cfg : AgentConfig) (env : Env) : Option (List String) :=
  if cfg.tools.isEmpty then none
  else some (env.getToolsForProvider cfg.provider)

/-- Lines 153-157 (and 312-316): the message context comes from memory
when enabled, else it is the ad-hoc `[system, user]` pair
(`agent.get_system_message()` renders the configured system prompt). -/
def initMessages (cfg : AgentConfig) (user_input : String) (memory : Memory) : List Message :=
  if cfg.enable_memory then memory.getMessages
  else [Message.system cfg.system_prompt, Message.user user_input]

/-- `AgentExecutor.run` (executor.py lines 131-288): add the user
message to memory when enabled, render the tools when the config lists
any, build the message context, then run the reasoning loop from
`iteration = 0` with an empty log. -/
def run (cfg : AgentConfig) (env : Env) (user_input : String) (memory : Memory) : RunOut :=
  let memory := initMemory cfg user_input memory
  runLoop cfg env cfg.max_iterations.toNat 0 (initTools cfg env)
    (initMessages cfg user_input memory) [] memory []

/-- `AgentExecutor.arun` (executor.py lines 290-447): identical setup,
asynchronous loop. -/
def arun (cfg : AgentConfig) (env : Env) (user_input : String) (memory : Memory) : RunOut :=
  let memory := initMemory cfg user_input memory
  arunLoop cfg env cfg.max_iterations.toNat 0 (initTools cfg env)
    (initMessages cfg user_input memory) [] memory []

/-! ### Derived notions used by the statements below -/

/-- Predicates on trace events: a model-collaborator call, an actual
tool-handler invocation. -/
def isModelCall : Event → Bool
  | .modelCall _ => true
  | _ => false

def isToolExec : Event → Bool
  | .toolExec _ _ => true
  | _ => false

/-- The outcome of processing one tool call, parameterized by which
handler entry point is used (`Tool.execute` for `run`, `Tool.aexecute`
for `arun`): `none` when processing raises (argument parse failure or
handler exception), otherwise the parsed arguments, the Tool Result
(synthesized when the name is absent from the registry), and whether a
handler was actually invoked. -/
def stepTCWith (env : Env) (ex : Tool → TCValue → Except String ToolResult)
    (tc : TCValue) : Option (TCValue × ToolResult × Bool) :=
  match loadsV env (getToolCallAttr tc "function.arguments") with
  | .error _ => none
  | .ok args =>
    match getToolV env (getToolCallAttr tc "function.name") with
    | none =>
      some (args
        , { success := false
          , error := some (toolNotFoundMsg (pyStrV (getToolCallAttr tc "function.name"))) }
        , false)
    | some tool =>
      match ex tool args with
      | .error _ => none
      | .ok res => some (args, res, true)

/-- A tool call whose processing invokes a handler and returns normally:
the arguments parse, the name resolves, and the handler returns a
Tool Result. -/
def ExecOkWith (env : Env) (ex : Tool → TCValue → Except String ToolResult)
    (tc : TCValue) : Prop :=
  ∃ a r, stepTCWith env ex tc = some (a, r, true)

/-- The values logged/appended for one tool call (junk defaults outside
the domain of `stepTCWith`; every use below is guarded by it). -/
def tcArgsD (env : Env) (ex : Tool → TCValue → Except String ToolResult)
    (tc : TCValue) : TCValue :=
  match stepTCWith env ex tc with
  | some (a, _, _) => a
  | none => .vnone

def tcResD (env : Env) (ex : Tool → TCValue → Except String ToolResult)
    (tc : TCValue) : ToolResult :=
  match stepTCWith env ex tc with
  | some (_, r, _) => r
  | none => { success := false }

def tcLogD (env : Env) (ex : Tool → TCValue → Except String ToolResult)
    (tc : TCValue) : LogEntry :=
  { tool := getToolCallAttr tc "function.name"
  , arguments := tcArgsD env ex tc
  , result := tcResD env ex tc }

def tcMsgD (env : Env) (ex : Tool → TCValue → Except String ToolResult)
    (tc : TCValue) : Message :=
  Message.tool (getToolCallAttr tc "id") (getToolCallAttr tc "function.name")
    (dumpsResult (tcResD env ex tc))

def tcEvD (env : Env) (ex : Tool → TCValue → Except String ToolResult)
    (tc : TCValue) : Event :=
  Event.toolExec (pyStrV (getToolCallAttr tc "function.name")) (tcArgsD env ex tc)

/-- Swapping a Tool's synchronous and asynchronous handlers, and an
environment's synchronous and asynchronous halves.  `arun` is exactly
`run` in the swapped environment (proved below), which lets every
asynchronous fact reuse its synchronous proof. -/
def Tool.swap (t : Tool) : Tool :=
  { execute := t.aexecute, aexecute := t.execute }

def Env.swap (env : Env) : Env :=
  { chat := env.achat
  , achat := env.chat
  , getTool := fun s => (env.getTool s).map Tool.swap
  , getToolsForProvider := env.getToolsForProvider
  , jsonLoads := env.jsonLoads }

mutual
/-- Deep dict↔object flip of a payload: every nested dict becomes the
attribute-bearing object with the same fields and vice versa. -/
def TCValue.flip : TCValue → TCValue
  | .vnone => .vnone
  | .vstr s => .vstr s
  | .vdict fs => .vobj (flipFields fs)
  | .vobj fs => .vdict (flipFields fs)
def flipFields : List (String × TCValue) → List (String × TCValue)
  | [] => []
  | (k, v) :: r => (k, TCValue.flip v) :: flipFields r
end

/-- A response with every tool-call payload flipped. -/
def flipResponse (r : ModelResponse) : ModelResponse :=
  { r with tool_calls := r.tool_calls.map TCValue.flip }

/-- An environment whose model collaborator reports the same responses
with every tool-call payload flipped. -/
def Env.flipPayloads (env : Env) : Env :=
  { env with
    chat := fun m t => (env.chat m t).map flipResponse
  , achat := fun m t => (env.achat m t).map flipResponse }

/-- Well-formed tool-call payload: the four attribute paths the
executor reads hold strings (`type` may also be absent). -/
def WFTC (tc : TCValue) : Prop :=
  (∃ s, getToolCallAttr tc "id" = .vstr s) ∧
  (∃ s, getToolCallAttr tc "function.name" = .vstr s) ∧
  (∃ s, getToolCallAttr tc "function.arguments" = .vstr s) ∧
  ((∃ s, getToolCallAttr tc "type" = .vstr s) ∨ getToolCallAttr tc "type" = .vnone)

/-! ### Concrete fixtures for the closed instance theorems -/

def wOkResult : ToolResult := { success := true, output := some "3" }

def wTool : Tool :=
  { execute := fun _ => .ok wOkResult, aexecute := fun _ => .ok wOkResult }

/-- A well-formed dict-shaped tool-call payload naming a registered tool. -/
def wTC : TCValue := .vdict
  [("id", .vstr "call-1"), ("type", .vstr "function")
  , ("function", .vdict [("name", .vstr "add"), ("arguments", .vstr "\x7b\"x\":1\x7d")])]

/-- A payload naming a tool absent from the registry. -/
def wTCMissing : TCValue := .vdict
  [("id", .vstr "call-2")
  , ("function", .vdict [("name", .vstr "ghost"), ("arguments", .vstr "\x7b\x7d")])]

/-- A payload whose argument string does not parse as JSON. -/
def wTCBad : TCValue := .vdict
  [("id", .vstr "call-3")
  , ("function", .vdict [("name", .vstr "add"), ("arguments", .vstr "not json")])]

def wRespTools : ModelResponse :=
  { content := none, tool_calls := [wTC], finish_reason := "tool_calls", model := "m1" }

def wRespFinal : ModelResponse :=
  { content := some "42", tool_calls := [], finish_reason := "stop", model := "m1" }

def wRespBad : ModelResponse :=
  { content := none, tool_calls := [wTCBad, wTC], finish_reason := "tool_calls"
  , model := "m1" }

/-- Model always asks for one executable tool call. -/
def wEnvLoop : Env :=
  { chat := fun _ _ => .ok wRespTools
  , achat := fun _ _ => .ok wRespTools
  , getTool := fun s => if s = "add" then some wTool else none
  , getToolsForProvider := fun _ => []
  , jsonLoads := fun s => .ok (.vstr s) }

/-- Model answers directly, no tool calls. -/
def wEnvFinal : Env :=
  { chat := fun _ _ => .ok wRespFinal
  , achat := fun _ _ => .ok wRespFinal
  , getTool := fun _ => none
  , getToolsForProvider := fun _ => []
  , jsonLoads := fun s => .ok (.vstr s) }

/-- Model raises on every call. -/
def wEnvErr : Env :=
  { chat := fun _ _ => .error "boom"
  , achat := fun _ _ => .error "boom"
  , getTool := fun _ => none
  , getToolsForProvider := fun _ => []
  , jsonLoads := fun s => .ok (.vstr s) }

/-- Model asks for two tool calls, the first with unparseable
arguments, the second executable; `json.loads` raises on the first. -/
def wEnvParse : Env :=
  { chat := fun _ _ => .ok wRespBad
  , achat := fun _ _ => .ok wRespBad
  , getTool := fun s => if s = "add" then some wTool else none
  , getToolsForProvider := fun _ => []
  , jsonLoads := fun s =>
      if s = "not json" then .error "Expecting value: line 1 column 1 (char 0)"
      else .ok (.vstr s) }

def wCfg : AgentConfig :=
  { provider := "openai", system_prompt := "sys", tools := []
  , max_iterations := 2, enable_memory := true }

def wCfgNeg : AgentConfig := { wCfg with max_iterations := -2 }

def wCfgNoMem : AgentConfig := { wCfg with enable_memory := false }

def wMem : Memory := { window_size := 10, msgs := [] }

def wPhase : ToolPhase :=
  { messages := [], log := [], memory := wMem, events := [], failed := none }


/-! ### Helper lemmas -/

theorem flipFields_lookup (fs : List (String × TCValue)) (k : String) :
    (flipFields fs).lookup k = (fs.lookup k).map TCValue.flip := by
  induction fs with
  | nil => simp [flipFields]
  | cons p r ih =>
    obtain ⟨a, v⟩ := p
    simp only [flipFields, List.lookup]
    by_cases h : k == a
    · simp [h]
    · simp [h, ih]

theorem getPart_flip (v : TCValue) (p : String) :
    getPart v.flip p = (getPart v p).flip := by
  cases v with
  | vnone => rfl
  | vstr s => rfl
  | vdict fs =>
    simp only [TCValue.flip, getPart, flipFields_lookup]
    cases fs.lookup p <;> rfl
  | vobj fs =>
    simp only [TCValue.flip, getPart, flipFields_lookup]
    cases fs.lookup p <;> rfl

theorem foldl_getPart_flip (parts : List String) (v : TCValue) :
    parts.foldl getPart v.flip = (parts.foldl getPart v).flip := by
  induction parts generalizing v with
  | nil => rfl
  | cons p rest ih => simp only [List.foldl, getPart_flip, ih]

theorem getToolCallAttr_flip (tc : TCValue) (attr : String) :
    getToolCallAttr tc.flip attr = (getToolCallAttr tc attr).flip := by
  simp only [getToolCallAttr, foldl_getPart_flip]

theorem normalizeTC_flip (tc : TCValue) (h : WFTC tc) :
    normalizeTC tc.flip = normalizeTC tc := by
  obtain ⟨⟨i, hi⟩, ⟨n, hn⟩, ⟨a, ha⟩, ht⟩ := h
  simp only [normalizeTC, getToolCallAttr_flip, hi, hn, ha]
  rcases ht with ⟨s, hs⟩ | hs <;> simp [hs, TCValue.flip]

theorem stepTCWith_swap (env : Env) (tc : TCValue) :
    stepTCWith env.swap Tool.execute tc = stepTCWith env Tool.aexecute tc := by
  simp only [stepTCWith]
  have hl : loadsV env.swap = loadsV env := by
    funext v; cases v <;> rfl
  have hg : ∀ v, getToolV env.swap v = (getToolV env v).map Tool.swap := by
    intro v; cases v <;> rfl
  rw [hl, hg]
  cases loadsV env (getToolCallAttr tc "function.arguments") with
  | error e => rfl
  | ok args =>
    cases getToolV env (getToolCallAttr tc "function.name") with
    | none => rfl
    | some t => rfl

theorem execAsync_eq_swap (cfg : AgentConfig) (env : Env)
    (tcs : List TCValue) (st : ToolPhase) :
    execToolCallsAsync cfg env tcs st = execToolCallsSync cfg env.swap tcs st := by
  induction tcs generalizing st with
  | nil => rfl
  | cons tc rest ih =>
    have hl : loadsV env.swap = loadsV env := by
      funext v; cases v <;> rfl
    have hg : ∀ v, getToolV env.swap v = (getToolV env v).map Tool.swap := by
      intro v; cases v <;> rfl
    cases hload : loadsV env (getToolCallAttr tc "function.arguments") with
    | error e =>
      simp [execToolCallsAsync, execToolCallsSync, hl, hg, hload]
    | ok args =>
      cases hget : getToolV env (getToolCallAttr tc "function.name") with
      | none =>
        simp [execToolCallsAsync, execToolCallsSync, hl, hg, hload, hget, ih]
      | some t =>
        cases hex : t.aexecute args with
        | error e =>
          simp [execToolCallsAsync, execToolCallsSync, hl, hg, hload, hget,
            Tool.swap, hex]
        | ok res =>
          simp [execToolCallsAsync, execToolCallsSync, hl, hg, hload, hget,
            Tool.swap, hex, ih]

theorem arunLoop_eq_swap (cfg : AgentConfig) (env : Env) (fuel iteration : Nat)
    (tools? : Option (List String)) (messages : List Message)
    (log : List LogEntry) (memory : Memory) (events : List Event) :
    arunLoop cfg env fuel iteration tools? messages log memory events =
      runLoop cfg env.swap fuel iteration tools? messages log memory events := by
  induction fuel generalizing iteration messages log memory events with
  | zero => rfl
  | succ fuel ih =>
    cases hchat : env.achat messages tools? with
    | error e => simp [arunLoop, runLoop, Env.swap, hchat]
    | ok response =>
      by_cases h : response.tool_calls.isEmpty
      · simp [arunLoop, runLoop, Env.swap, hchat, h]
      · simp only [arunLoop, runLoop, Env.swap, hchat, h, Bool.false_eq_true,
          if_false, execAsync_eq_swap, ih]

theorem arun_eq_swap (cfg : AgentConfig) (env : Env) (user_input : String)
    (memory : Memory) :
    arun cfg env user_input memory = run cfg env.swap user_input memory := by
  simp only [arun, run, arunLoop_eq_swap]
  rfl

/-- Inversion of `ExecOkWith`: the three steps the for-loop body takes. -/
theorem execOkWith_inv (env : Env) (ex : Tool → TCValue → Except String ToolResult)
    (tc : TCValue) (a : TCValue) (r : ToolResult)
    (h : stepTCWith env ex tc = some (a, r, true)) :
    loadsV env (getToolCallAttr tc "function.arguments") = .ok a ∧
    ∃ tool, getToolV env (getToolCallAttr tc "function.name") = some tool ∧
      ex tool a = .ok r := by
  unfold stepTCWith at h
  cases hload : loadsV env (getToolCallAttr tc "function.arguments") with
  | error e => rw [hload] at h; simp at h
  | ok args =>
    rw [hload] at h
    simp only at h
    cases hget : getToolV env (getToolCallAttr tc "function.name") with
    | none => rw [hget] at h; simp at h
    | some tool =>
      rw [hget] at h
      simp only at h
      cases hex : ex tool args with
      | error e => rw [hex] at h; simp at h
      | ok res =>
        rw [hex] at h
        simp only [Option.some.injEq, Prod.mk.injEq] at h
        obtain ⟨ha, hr, -⟩ := h
        subst ha; subst hr
        exact ⟨rfl, tool, rfl, hex⟩

/-- Characterization of the tool for-loop when every call in the list
parses, resolves and executes normally: no exception is raised, and the
log, the appended tool messages, the memory entries (when enabled) and
the handler-invocation events are exactly one per tool call, in list
order. -/
theorem execSync_spec (cfg : AgentConfig) (env : Env) (tcs : List TCValue)
    (st : ToolPhase) (hf : st.failed = none)
    (h : ∀ tc ∈ tcs, ExecOkWith env Tool.execute tc) :
    execToolCallsSync cfg env tcs st =
      { messages := st.messages ++ tcs.map (tcMsgD env Tool.execute)
      , log := st.log ++ tcs.map (tcLogD env Tool.execute)
      , memory := { window_size := st.memory.window_size
                  , msgs := st.memory.msgs ++
                      (if cfg.enable_memory then tcs.map (tcMsgD env Tool.execute) else []) }
      , events := st.events ++ tcs.map (tcEvD env Tool.execute)
      , failed := none } := by
  induction tcs generalizing st with
  | nil =>
    obtain ⟨ms, lg, ⟨w, mm⟩, ev, f⟩ := st
    simp only [ToolPhase.failed] at hf
    subst hf
    simp [execToolCallsSync]
  | cons tc rest ih =>
    obtain ⟨a, r, hstep⟩ := h tc (List.mem_cons_self tc rest)
    obtain ⟨hload, tool, hget, hex⟩ := execOkWith_inv env Tool.execute tc a r hstep
    have hrest : ∀ tc' ∈ rest, ExecOkWith env Tool.execute tc' :=
      fun tc' htc' => h tc' (List.mem_cons_of_mem tc htc')
    have hargs : tcArgsD env Tool.execute tc = a := by
      simp [tcArgsD, hstep]
    have hres : tcResD env Tool.execute tc = r := by
      simp [tcResD, hstep]
    simp only [execToolCallsSync, hload, hget, hex]
    refine (ih _ rfl hrest).trans ?_
    cases hmem : cfg.enable_memory with
    | false =>
      simp [tcMsgD, tcLogD, tcEvD, hargs, hres, Memory.addTool, hmem]
    | true =>
      simp [tcMsgD, tcLogD, tcEvD, hargs, hres, Memory.addTool, hmem]


/-- With memory disabled, the tool for-loop never touches memory. -/
theorem execSync_memory_frame (cfg : AgentConfig) (env : Env)
    (hmem : cfg.enable_memory = false) (tcs : List TCValue) (st : ToolPhase) :
    (execToolCallsSync cfg env tcs st).memory = st.memory := by
  induction tcs generalizing st with
  | nil => rfl
  | cons tc rest ih =>
    cases hload : loadsV env (getToolCallAttr tc "function.arguments") with
    | error e => simp [execToolCallsSync, hload]
    | ok args =>
      cases hget : getToolV env (getToolCallAttr tc "function.name") with
      | none => simp [execToolCallsSync, hload, hget, hmem, ih]
      | some t =>
        cases hex : t.execute args with
        | error e => simp [execToolCallsSync, hload, hget, hex]
        | ok res => simp [execToolCallsSync, hload, hget, hex, hmem, ih]

/-- The tool for-loop only ever appends to the ghost trace. -/
theorem execSync_events_mono (cfg : AgentConfig) (env : Env)
    (tcs : List TCValue) (st : ToolPhase) :
    ∃ t, (execToolCallsSync cfg env tcs st).events = st.events ++ t := by
  induction tcs generalizing st with
  | nil => exact ⟨[], by simp [execToolCallsSync]⟩
  | cons tc rest ih =>
    have key : ∀ (st' : ToolPhase) t0, st'.events = st.events ++ t0 →
        ∃ t, (execToolCallsSync cfg env rest st').events = st.events ++ t := by
      intro st' t0 h0
      obtain ⟨t, ht⟩ := ih st'
      exact ⟨t0 ++ t, by rw [ht, h0, List.append_assoc]⟩
    cases hload : loadsV env (getToolCallAttr tc "function.arguments") with
    | error e => exact ⟨[], by simp [execToolCallsSync, hload]⟩
    | ok args =>
      cases hget : getToolV env (getToolCallAttr tc "function.name") with
      | none =>
        simp only [execToolCallsSync, hload, hget]
        exact key _ [] (by simp)
      | some tool =>
        cases hex : tool.execute args with
        | error e => exact ⟨[], by simp [execToolCallsSync, hload, hget, hex]⟩
        | ok res =>
          simp only [execToolCallsSync, hload, hget, hex]
          exact key _ [Event.toolExec (pyStrV (getToolCallAttr tc "function.name")) args]
            (by simp)

/-- With memory disabled, the reasoning loop never touches memory. -/
theorem runLoop_memory_frame (cfg : AgentConfig) (env : Env)
    (hmem : cfg.enable_memory = false) (fuel iteration : Nat)
    (tools? : Option (List String)) (messages : List Message)
    (log : List LogEntry) (memory : Memory) (events : List Event) :
    (runLoop cfg env fuel iteration tools? messages log memory events).memory = memory := by
  induction fuel generalizing iteration messages log memory events with
  | zero => rfl
  | succ fuel ih =>
    cases hchat : env.chat messages tools? with
    | error e => simp [runLoop, hchat]
    | ok response =>
      by_cases h : response.tool_calls.isEmpty
      · simp [runLoop, hchat, h, hmem]
      · simp only [runLoop, hchat, h, Bool.false_eq_true, if_false]
        cases hf : (execToolCallsSync cfg env response.tool_calls
            { messages := messages ++ [Message.assistant response.content
                (response.tool_calls.map normalizeTC)]
            , log := log, memory := memory
            , events := events ++ [Event.modelCall messages] }).failed with
        | some e =>
          simp only [hf]
          exact execSync_memory_frame cfg env hmem _ _
        | none =>
          simp only [hf]
          rw [ih]
          exact execSync_memory_frame cfg env hmem _ _

/-- The reasoning loop only ever appends to the ghost trace. -/
theorem runLoop_events_mono (cfg : AgentConfig) (env : Env) (fuel : Nat) :
    ∀ (iteration : Nat) (tools? : Option (List String)) (messages : List Message)
      (log : List LogEntry) (memory : Memory) (events : List Event),
    ∃ t, (runLoop cfg env fuel iteration tools? messages log memory events).events =
      events ++ t := by
  induction fuel with
  | zero => exact fun _ _ _ _ _ _ => ⟨[], by simp [runLoop]⟩
  | succ fuel ih =>
    intro iteration tools? messages log memory events
    cases hchat : env.chat messages tools? with
    | error e => exact ⟨[Event.modelCall messages], by simp [runLoop, hchat]⟩
    | ok response =>
      by_cases h : response.tool_calls.isEmpty
      · exact ⟨[Event.modelCall messages], by simp [runLoop, hchat, h]⟩
      · simp only [runLoop, hchat, h, Bool.false_eq_true, if_false]
        obtain ⟨t1, ht1⟩ := execSync_events_mono cfg env response.tool_calls
          { messages := messages ++ [Message.assistant response.content
              (response.tool_calls.map normalizeTC)]
          , log := log, memory := memory
          , events := events ++ [Event.modelCall messages] }
        cases hf : (execToolCallsSync cfg env response.tool_calls
            { messages := messages ++ [Message.assistant response.content
                (response.tool_calls.map normalizeTC)]
            , log := log, memory := memory
            , events := events ++ [Event.modelCall messages] }).failed with
        | some e =>
          refine ⟨Event.modelCall messages :: t1, ?_⟩
          simp only [hf]
          rw [ht1]
          simp
        | none =>
          simp only [hf]
          obtain ⟨t2, ht2⟩ := ih (iteration + 1) tools? _ _ _ _
          refine ⟨Event.modelCall messages :: (t1 ++ t2), ?_⟩
          rw [ht2, ht1]
          simp

theorem countP_modelCall_tcEvD (env : Env)
    (ex : Tool → TCValue → Except String ToolResult) (tcs : List TCValue) :
    (tcs.map (tcEvD env ex)).countP isModelCall = 0 := by
  simp [List.countP_map, Function.comp, tcEvD, isModelCall]

theorem countP_toolExec_tcEvD (env : Env)
    (ex : Tool → TCValue → Except String ToolResult) (tcs : List TCValue) :
    (tcs.map (tcEvD env ex)).countP isToolExec = tcs.length := by
  simp [List.countP_map, Function.comp, tcEvD, isToolExec]

/-- Invariant of the reasoning loop when every model response carries
tool calls that all parse, resolve and execute: the loop runs its full
fuel, fails with the max-iterations error, makes one model call per
unit of fuel, and grows the log by exactly one entry per
handler-invocation event. -/
theorem runLoop_maxiter_invariant (cfg : AgentConfig) (env : Env)
    (tools? : Option (List String))
    (hM : ∀ msgs, ∃ r, env.chat msgs tools? = Except.ok r ∧ r.tool_calls ≠ [] ∧
      ∀ tc ∈ r.tool_calls, ExecOkWith env Tool.execute tc) :
    ∀ (fuel iteration : Nat) (messages : List Message) (log : List LogEntry)
      (memory : Memory) (events : List Event),
    (runLoop cfg env fuel iteration tools? messages log memory events).result.success
        = false ∧
    (runLoop cfg env fuel iteration tools? messages log memory events).result.error
        = some (maxIterMsg cfg.max_iterations) ∧
    (runLoop cfg env fuel iteration tools? messages log memory events).result.iterations
        = iteration + fuel ∧
    (runLoop cfg env fuel iteration tools? messages log memory events).events.countP
        isModelCall = events.countP isModelCall + fuel ∧
    (runLoop cfg env fuel iteration tools? messages log memory events).result.tool_calls.length
        + events.countP isToolExec =
      log.length +
        (runLoop cfg env fuel iteration tools? messages log memory events).events.countP
          isToolExec := by
  intro fuel
  induction fuel with
  | zero =>
    intro iteration messages log memory events
    refine ⟨rfl, rfl, by simp [runLoop], by simp [runLoop], by simp [runLoop]⟩
  | succ fuel ih =>
    intro iteration messages log memory events
    obtain ⟨r, hchat, hne, hexec⟩ := hM messages
    have hempty : r.tool_calls.isEmpty = false := by
      cases hr : r.tool_calls with
      | nil => exact absurd hr hne
      | cons a l => rfl
    have hspec := execSync_spec cfg env r.tool_calls
      { messages := messages ++ [Message.assistant r.content (r.tool_calls.map normalizeTC)]
      , log := log, memory := memory
      , events := events ++ [Event.modelCall messages] } rfl hexec
    simp only [runLoop, hchat, hempty, Bool.false_eq_true, if_false, hspec]
    obtain ⟨s1, s2, s3, s4, s5⟩ := ih (iteration + 1)
      (messages ++ [Message.assistant r.content (r.tool_calls.map normalizeTC)]
        ++ r.tool_calls.map (tcMsgD env Tool.execute))
      (log ++ r.tool_calls.map (tcLogD env Tool.execute))
      { window_size := memory.window_size
      , msgs := memory.msgs ++
          (if cfg.enable_memory then r.tool_calls.map (tcMsgD env Tool.execute) else []) }
      ((events ++ [Event.modelCall messages]) ++ r.tool_calls.map (tcEvD env Tool.execute))
    have hA : (events ++ [Event.modelCall messages]
        ++ r.tool_calls.map (tcEvD env Tool.execute)).countP isModelCall =
        events.countP isModelCall + 1 := by
      rw [List.countP_append, List.countP_append, countP_modelCall_tcEvD]
      simp [isModelCall, List.countP_cons]
    have hB : (events ++ [Event.modelCall messages]
        ++ r.tool_calls.map (tcEvD env Tool.execute)).countP isToolExec =
        events.countP isToolExec + r.tool_calls.length := by
      rw [List.countP_append, List.countP_append, countP_toolExec_tcEvD]
      simp [isToolExec, List.countP_cons]
    refine ⟨s1, s2, by rw [s3]; omega, ?_, ?_⟩
    · rw [s4, hA]
      omega
    · have h5 := s5
      rw [hB, List.length_append, List.length_map] at h5
      omega

/-- The tool loop ignores the chat half of the environment. -/
theorem execSync_env_flip (cfg : AgentConfig) (env : Env)
    (tcs : List TCValue) (st : ToolPhase) :
    execToolCallsSync cfg env.flipPayloads tcs st = execToolCallsSync cfg env tcs st := by
  have hl : loadsV env.flipPayloads = loadsV env := by
    funext v; cases v <;> rfl
  have hg : getToolV env.flipPayloads = getToolV env := by
    funext v; cases v <;> rfl
  induction tcs generalizing st with
  | nil => rfl
  | cons tc rest ih =>
    cases hload : loadsV env (getToolCallAttr tc "function.arguments") with
    | error e => simp [execToolCallsSync, hl, hg, hload]
    | ok args =>
      cases hget : getToolV env (getToolCallAttr tc "function.name") with
      | none => simp [execToolCallsSync, hl, hg, hload, hget, ih]
      | some tool =>
        cases hex : tool.execute args with
        | error e => simp [execToolCallsSync, hl, hg, hload, hget, hex]
        | ok res => simp [execToolCallsSync, hl, hg, hload, hget, hex, ih]

/-- Step equations of the tool for-loop, one per branch of the body:
argument-parse failure raises, an unknown name synthesizes the failing
result and continues, a normal handler return logs and continues, a
handler exception raises. -/
theorem execSync_cons_parsefail (cfg : AgentConfig) (env : Env) (tc : TCValue)
    (rest : List TCValue) (st : ToolPhase) (e : String)
    (h1 : loadsV env (getToolCallAttr tc "function.arguments") = .error e) :
    execToolCallsSync cfg env (tc :: rest) st = { st with failed := some e } := by
  simp [execToolCallsSync, h1]

/-- The Tool Result synthesized for an unknown tool name (lines 234-238). -/
def notFoundResult (name : TCValue) : ToolResult :=
  { success := false, error := some (toolNotFoundMsg (pyStrV name)) }

theorem execSync_cons_notfound (cfg : AgentConfig) (env : Env) (tc : TCValue)
    (rest : List TCValue) (st : ToolPhase) (args : TCValue)
    (h1 : loadsV env (getToolCallAttr tc "function.arguments") = .ok args)
    (h2 : getToolV env (getToolCallAttr tc "function.name") = none) :
    execToolCallsSync cfg env (tc :: rest) st =
      execToolCallsSync cfg env rest
        { messages := st.messages ++ [Message.tool (getToolCallAttr tc "id")
            (getToolCallAttr tc "function.name")
            (dumpsResult (notFoundResult (getToolCallAttr tc "function.name")))]
        , log := st.log ++
            [{ tool := getToolCallAttr tc "function.name", arguments := args
             , result := notFoundResult (getToolCallAttr tc "function.name") }]
        , memory := if cfg.enable_memory then
            st.memory.addTool
              (dumpsResult (notFoundResult (getToolCallAttr tc "function.name")))
              (getToolCallAttr tc "function.name") (getToolCallAttr tc "id")
          else st.memory
        , events := st.events
        , failed := none } := by
  simp [execToolCallsSync, notFoundResult, h1, h2]

theorem execSync_cons_run (cfg : AgentConfig) (env : Env) (tc : TCValue)
    (rest : List TCValue) (st : ToolPhase) (args : TCValue) (tool : Tool)
    (res : ToolResult)
    (h1 : loadsV env (getToolCallAttr tc "function.arguments") = .ok args)
    (h2 : getToolV env (getToolCallAttr tc "function.name") = some tool)
    (h3 : tool.execute args = .ok res) :
    execToolCallsSync cfg env (tc :: rest) st =
      execToolCallsSync cfg env rest
        { messages := st.messages ++ [Message.tool (getToolCallAttr tc "id")
            (getToolCallAttr tc "function.name") (dumpsResult res)]
        , log := st.log ++
            [{ tool := getToolCallAttr tc "function.name", arguments := args
             , result := res }]
        , memory := if cfg.enable_memory then
            st.memory.addTool (dumpsResult res) (getToolCallAttr tc "function.name")
              (getToolCallAttr tc "id")
          else st.memory
        , events := st.events ++
            [Event.toolExec (pyStrV (getToolCallAttr tc "function.name")) args]
        , failed := none } := by
  simp [execToolCallsSync, h1, h2, h3]

theorem execSync_cons_execfail (cfg : AgentConfig) (env : Env) (tc : TCValue)
    (rest : List TCValue) (st : ToolPhase) (args : TCValue) (tool : Tool)
    (e : String)
    (h1 : loadsV env (getToolCallAttr tc "function.arguments") = .ok args)
    (h2 : getToolV env (getToolCallAttr tc "function.name") = some tool)
    (h3 : tool.execute args = .error e) :
    execToolCallsSync cfg env (tc :: rest) st = { st with failed := some e } := by
  simp [execToolCallsSync, h1, h2, h3]

/-- Flipping well-formed payloads does not change the tool loop. -/
theorem execSync_flip (cfg : AgentConfig) (env : Env) (tcs : List TCValue)
    (st : ToolPhase) (h : ∀ tc ∈ tcs, WFTC tc) :
    execToolCallsSync cfg env (tcs.map TCValue.flip) st =
      execToolCallsSync cfg env tcs st := by
  induction tcs generalizing st with
  | nil => rfl
  | cons tc rest ih =>
    obtain ⟨⟨i, hi⟩, ⟨n, hn⟩, ⟨a, ha⟩, -⟩ := h tc (List.mem_cons_self tc rest)
    have hname : getToolCallAttr tc.flip "function.name" =
        getToolCallAttr tc "function.name" := by
      rw [getToolCallAttr_flip, hn]; rfl
    have hargs : getToolCallAttr tc.flip "function.arguments" =
        getToolCallAttr tc "function.arguments" := by
      rw [getToolCallAttr_flip, ha]; rfl
    have hid : getToolCallAttr tc.flip "id" = getToolCallAttr tc "id" := by
      rw [getToolCallAttr_flip, hi]; rfl
    have hrest : ∀ tc' ∈ rest, WFTC tc' :=
      fun tc' h' => h tc' (List.mem_cons_of_mem tc h')
    rw [List.map_cons]
    cases hload : loadsV env (getToolCallAttr tc "function.arguments") with
    | error e =>
      rw [execSync_cons_parsefail cfg env tc.flip _ st e (by rw [hargs]; exact hload),
        execSync_cons_parsefail cfg env tc rest st e hload]
    | ok args =>
      cases hget : getToolV env (getToolCallAttr tc "function.name") with
      | none =>
        rw [execSync_cons_notfound cfg env tc.flip _ st args
            (by rw [hargs]; exact hload) (by rw [hname]; exact hget),
          execSync_cons_notfound cfg env tc rest st args hload hget]
        simp only [hname, hargs, hid]
        exact ih _ hrest
      | some tool =>
        cases hex : tool.execute args with
        | error e =>
          rw [execSync_cons_execfail cfg env tc.flip _ st args tool e
              (by rw [hargs]; exact hload) (by rw [hname]; exact hget) hex,
            execSync_cons_execfail cfg env tc rest st args tool e hload hget hex]
        | ok res =>
          rw [execSync_cons_run cfg env tc.flip _ st args tool res
              (by rw [hargs]; exact hload) (by rw [hname]; exact hget) hex,
            execSync_cons_run cfg env tc rest st args tool res hload hget hex]
          simp only [hname, hargs, hid]
          exact ih _ hrest

/-- Flipping well-formed payloads does not change the assistant
message the executor rebuilds. -/
theorem map_normalizeTC_flip (tcs : List TCValue) (h : ∀ tc ∈ tcs, WFTC tc) :
    (tcs.map TCValue.flip).map normalizeTC = tcs.map normalizeTC := by
  rw [List.map_map]
  exact List.map_congr_left fun tc htc => normalizeTC_flip tc (h tc htc)

theorem isEmpty_map_flip (tcs : List TCValue) :
    (tcs.map TCValue.flip).isEmpty = tcs.isEmpty := by
  cases tcs <;> rfl

/-- Flipping every payload in every model response does not change the
reasoning loop, provided the payloads are well formed. -/
theorem runLoop_flipPayloads (cfg : AgentConfig) (env : Env)
    (h : ∀ m t r, env.chat m t = Except.ok r → ∀ tc ∈ r.tool_calls, WFTC tc) :
    ∀ (fuel iteration : Nat) (tools? : Option (List String))
      (messages : List Message) (log : List LogEntry) (memory : Memory)
      (events : List Event),
    runLoop cfg env.flipPayloads fuel iteration tools? messages log memory events =
      runLoop cfg env fuel iteration tools? messages log memory events := by
  intro fuel
  induction fuel with
  | zero => intro _ _ _ _ _ _; rfl
  | succ fuel ih =>
    intro iteration tools? messages log memory events
    have hchat' : env.flipPayloads.chat messages tools? =
        (env.chat messages tools?).map flipResponse := rfl
    cases hchat : env.chat messages tools? with
    | error e =>
      simp only [runLoop, hchat', hchat, Except.map]
    | ok r =>
      have hWF : ∀ tc ∈ r.tool_calls, WFTC tc := h messages tools? r hchat
      simp only [runLoop, hchat', hchat, Except.map, flipResponse]
      by_cases hne : r.tool_calls.isEmpty
      · simp only [List.isEmpty_iff] at hne
        simp [hne]
      · have hne' : r.tool_calls.isEmpty = false := by
          cases hr : r.tool_calls.isEmpty with
          | false => rfl
          | true => exact absurd hr hne
        simp only [isEmpty_map_flip, hne', Bool.false_eq_true, if_false,
          map_normalizeTC_flip r.tool_calls hWF, execSync_env_flip,
          execSync_flip cfg env r.tool_calls _ hWF]
        cases hf : (execToolCallsSync cfg env r.tool_calls
            { messages := messages ++ [Message.assistant r.content
                (r.tool_calls.map normalizeTC)]
            , log := log, memory := memory
            , events := events ++ [Event.modelCall messages] }).failed with
        | some e => simp only [hf]
        | none => simp only [hf, ih]

/-- The per-call description functions agree across the swap
construction: processing with the swapped registry's synchronous
handlers is processing with the original asynchronous handlers. -/
theorem tcLogD_swap (env : Env) :
    tcLogD env.swap Tool.execute = tcLogD env Tool.aexecute := by
  funext tc
  simp [tcLogD, tcArgsD, tcResD, stepTCWith_swap]

theorem tcMsgD_swap (env : Env) :
    tcMsgD env.swap Tool.execute = tcMsgD env Tool.aexecute := by
  funext tc
  simp [tcMsgD, tcArgsD, tcResD, stepTCWith_swap]

theorem tcEvD_swap (env : Env) :
    tcEvD env.swap Tool.execute = tcEvD env Tool.aexecute := by
  funext tc
  simp [tcEvD, tcArgsD, tcResD, stepTCWith_swap]

/-- One pass of the reasoning loop always records its model call first:
whatever else happens, the trace extends `events` with the model call
on the current messages. -/
theorem runLoop_succ_events (cfg : AgentConfig) (env : Env) (fuel iteration : Nat)
    (tools? : Option (List String)) (messages : List Message)
    (log : List LogEntry) (memory : Memory) (events : List Event) :
    ∃ t, (runLoop cfg env (fuel + 1) iteration tools? messages log memory events).events =
      events ++ [Event.modelCall messages] ++ t := by
  cases hchat : env.chat messages tools? with
  | error e => exact ⟨[], by simp [runLoop, hchat]⟩
  | ok r =>
    by_cases hne : r.tool_calls.isEmpty
    · exact ⟨[], by simp [runLoop, hchat, hne]⟩
    · have hne' : r.tool_calls.isEmpty = false := by
        cases hx : r.tool_calls.isEmpty with
        | false => rfl
        | true => exact absurd hx hne
      simp only [runLoop, hchat, hne', Bool.false_eq_true, if_false]
      obtain ⟨t1, ht1⟩ := execSync_events_mono cfg env r.tool_calls
        { messages := messages ++
            [Message.assistant r.content (r.tool_calls.map normalizeTC)]
        , log := log, memory := memory
        , events := events ++ [Event.modelCall messages] }
      set ph := execToolCallsSync cfg env r.tool_calls
        { messages := messages ++
            [Message.assistant r.content (r.tool_calls.map normalizeTC)]
        , log := log, memory := memory
        , events := events ++ [Event.modelCall messages] } with hph
      cases hf : ph.failed with
      | some e =>
        refine ⟨t1, ?_⟩
        simp only [hf]
        exact ht1
      | none =>
        obtain ⟨t2, ht2⟩ := runLoop_events_mono cfg env fuel (iteration + 1) tools?
          ph.messages ph.log ph.memory ph.events
        refine ⟨t1 ++ t2, ?_⟩
        simp only [hf]
        rw [ht2, ht1, List.append_assoc]

/-! ### Claim theorems -/

/-- C4: for every tool call naming a capability absent from the Tool
Registry (and whose argument string parses), the Execution Loop does
not raise and does not abort the run: it synthesizes a Tool Result with
`success = false` and error `Tool '<name>' not found in registry`,
appends the serialized success/output/error as a tool-role message to
the history (and to memory when enabled), logs the call, and continues
with the next tool call. -/
theorem C4_tool_not_found (cfg : AgentConfig) (env : Env) (tc : TCValue)
    (rest : List TCValue) (st : ToolPhase) (args : TCValue)
    (hparse : loadsV env (getToolCallAttr tc "function.arguments") = .ok args)
    (habsent : getToolV env (getToolCallAttr tc "function.name") = none) :
    (notFoundResult (getToolCallAttr tc "function.name")).success = false ∧
    (notFoundResult (getToolCallAttr tc "function.name")).error =
      some (toolNotFoundMsg (pyStrV (getToolCallAttr tc "function.name"))) ∧
    execToolCallsSync cfg env (tc :: rest) st =
      execToolCallsSync cfg env rest
        { messages := st.messages ++ [Message.tool (getToolCallAttr tc "id")
            (getToolCallAttr tc "function.name")
            (dumpsResult (notFoundResult (getToolCallAttr tc "function.name")))]
        , log := st.log ++
            [{ tool := getToolCallAttr tc "function.name", arguments := args
             , result := notFoundResult (getToolCallAttr tc "function.name") }]
        , memory := if cfg.enable_memory then
            st.memory.addTool
              (dumpsResult (notFoundResult (getToolCallAttr tc "function.name")))
              (getToolCallAttr tc "function.name") (getToolCallAttr tc "id")
          else st.memory
        , events := st.events
        , failed := none } :=
  ⟨rfl, rfl, execSync_cons_notfound cfg env tc rest st args hparse habsent⟩

/-- C6: if the model collaborator raises on a call, the run terminates
immediately: the result is failed with exactly the raised message, the
iteration counter as incremented just before the failing call, and the
tool-call log exactly as gathered so far; memory, the message history
and the trace gain nothing beyond the failing model call itself. -/
theorem C6_model_error_terminates (cfg : AgentConfig) (env : Env)
    (fuel iteration : Nat) (tools? : Option (List String))
    (messages : List Message) (log : List LogEntry) (memory : Memory)
    (events : List Event) (e : String)
    (hchat : env.chat messages tools? = .error e) :
    runLoop cfg env (fuel + 1) iteration tools? messages log memory events =
      { result := { success := false, output := "", iterations := iteration + 1
                  , tool_calls := log, error := some e, metadata := [] }
      , memory := memory, messages := messages
      , events := events ++ [Event.modelCall messages] } := by
  simp [runLoop, hchat]

/-- C9: with `max_iterations <= 0`, `run` and `arun` perform zero model
calls and zero tool executions (empty trace) and return a failed
result with `iterations = 0`, an empty log, and the max-iterations
error message. -/
theorem C9_nonpositive_max_iterations (cfg : AgentConfig) (env : Env)
    (input : String) (mem : Memory) (hN : cfg.max_iterations ≤ 0) :
    run cfg env input mem =
      { result := { success := false, output := "", iterations := 0, tool_calls := []
                  , error := some (maxIterMsg cfg.max_iterations), metadata := [] }
      , memory := initMemory cfg input mem
      , messages := initMessages cfg input (initMemory cfg input mem)
      , events := [] } ∧
    arun cfg env input mem =
      { result := { success := false, output := "", iterations := 0, tool_calls := []
                  , error := some (maxIterMsg cfg.max_iterations), metadata := [] }
      , memory := initMemory cfg input mem
      , messages := initMessages cfg input (initMemory cfg input mem)
      , events := [] } := by
  have h0 : cfg.max_iterations.toNat = 0 := by omega
  constructor
  · simp [run, h0, runLoop]
  · simp [arun, h0, arunLoop]

/-- C1: with `max_iterations = N >= 1` and a model collaborator whose
every response carries at least one tool call (each of which parses,
resolves and executes normally), `run` fails with the message
`Maximum iterations (N) reached` after exactly N model calls, and the
tool-call log has exactly one entry per tool call actually executed
(per handler-invocation event in the trace). -/
theorem C1_max_iterations_exhaustion (cfg : AgentConfig) (env : Env)
    (input : String) (mem : Memory) (hN : 1 ≤ cfg.max_iterations)
    (hM : ∀ msgs, ∃ r, env.chat msgs (initTools cfg env) = Except.ok r ∧
      r.tool_calls ≠ [] ∧ ∀ tc ∈ r.tool_calls, ExecOkWith env Tool.execute tc) :
    (run cfg env input mem).result.success = false ∧
    (run cfg env input mem).result.error = some (maxIterMsg cfg.max_iterations) ∧
    ((run cfg env input mem).result.iterations : Int) = cfg.max_iterations ∧
    ((run cfg env input mem).events.countP isModelCall : Int) = cfg.max_iterations ∧
    (run cfg env input mem).result.tool_calls.length =
      (run cfg env input mem).events.countP isToolExec := by
  obtain ⟨s1, s2, s3, s4, s5⟩ := runLoop_maxiter_invariant cfg env (initTools cfg env) hM
    cfg.max_iterations.toNat 0 (initMessages cfg input (initMemory cfg input mem)) []
    (initMemory cfg input mem) []
  have hrun : run cfg env input mem =
      runLoop cfg env cfg.max_iterations.toNat 0 (initTools cfg env)
        (initMessages cfg input (initMemory cfg input mem)) []
        (initMemory cfg input mem) [] := rfl
  rw [hrun]
  refine ⟨s1, s2, ?_, ?_, ?_⟩
  · rw [s3]; omega
  · rw [s4]; simp only [List.countP_nil]; omega
  · have h5 := s5
    simp only [List.countP_nil, List.length_nil] at h5
    omega

/-- C2: when the first model response carries no tool calls (and a
string content), `run` performs exactly one model call and returns a
successful result with `iterations = 1`, output equal to that
response's content, and an empty tool-call log; memory gains the
assistant answer when enabled. -/
theorem C2_single_call_success (cfg : AgentConfig) (env : Env) (input : String)
    (mem : Memory) (r : ModelResponse) (s : String)
    (hN : 0 < cfg.max_iterations)
    (hchat : env.chat (initMessages cfg input (initMemory cfg input mem))
      (initTools cfg env) = .ok r)
    (hnone : r.tool_calls = [])
    (hcontent : r.content = some s) :
    run cfg env input mem =
      { result := { success := true, output := s, iterations := 1, tool_calls := []
                  , error := none
                  , metadata := [("finish_reason", r.finish_reason), ("model", r.model)] }
      , memory := if cfg.enable_memory then (initMemory cfg input mem).addAssistant s
                  else initMemory cfg input mem
      , messages := initMessages cfg input (initMemory cfg input mem)
      , events := [Event.modelCall (initMessages cfg input (initMemory cfg input mem))] } := by
  obtain ⟨k, hk⟩ : ∃ k, cfg.max_iterations.toNat = k + 1 :=
    ⟨cfg.max_iterations.toNat - 1, by omega⟩
  have hrun : run cfg env input mem =
      runLoop cfg env cfg.max_iterations.toNat 0 (initTools cfg env)
        (initMessages cfg input (initMemory cfg input mem)) []
        (initMemory cfg input mem) [] := rfl
  rw [hrun, hk]
  simp [runLoop, hchat, hnone, hcontent]

/-- C3: within one iteration, the tool calls of a model response are
processed strictly in the order the model returned them, in both the
synchronous and the asynchronous loop: when every call in the list
parses, resolves and executes normally, the appended log entries, the
appended tool-role messages, the memory entries (when enabled) and the
handler-invocation events are each exactly the image of the tool-call
list under the respective per-call description map — so the i-th
handler invocation, the i-th log entry and the i-th appended tool
message all come from the i-th tool call of the response. -/
theorem C3_tool_calls_in_order (cfg : AgentConfig) (env : Env)
    (tcs : List TCValue) (st : ToolPhase) (hf : st.failed = none)
    (hsync : ∀ tc ∈ tcs, ExecOkWith env Tool.execute tc)
    (hasync : ∀ tc ∈ tcs, ExecOkWith env Tool.aexecute tc) :
    execToolCallsSync cfg env tcs st =
      { messages := st.messages ++ tcs.map (tcMsgD env Tool.execute)
      , log := st.log ++ tcs.map (tcLogD env Tool.execute)
      , memory := { window_size := st.memory.window_size
                  , msgs := st.memory.msgs ++
                      (if cfg.enable_memory then tcs.map (tcMsgD env Tool.execute) else []) }
      , events := st.events ++ tcs.map (tcEvD env Tool.execute)
      , failed := none } ∧
    execToolCallsAsync cfg env tcs st =
      { messages := st.messages ++ tcs.map (tcMsgD env Tool.aexecute)
      , log := st.log ++ tcs.map (tcLogD env Tool.aexecute)
      , memory := { window_size := st.memory.window_size
                  , msgs := st.memory.msgs ++
                      (if cfg.enable_memory then tcs.map (tcMsgD env Tool.aexecute) else []) }
      , events := st.events ++ tcs.map (tcEvD env Tool.aexecute)
      , failed := none } := by
  constructor
  · exact execSync_spec cfg env tcs st hf hsync
  · have hswap : ∀ tc ∈ tcs, ExecOkWith env.swap Tool.execute tc := by
      intro tc htc
      obtain ⟨a, r, hs⟩ := hasync tc htc
      exact ⟨a, r, by rw [stepTCWith_swap]; exact hs⟩
    rw [execAsync_eq_swap, execSync_spec cfg env.swap tcs st hf hswap,
      tcMsgD_swap, tcLogD_swap, tcEvD_swap]

/-- C7: when the asynchronous collaborators coincide with the
synchronous ones (`achat = chat`, and every registered tool's
`aexecute` is its `execute`), `arun` and `run` return equal results
and perform identical state transitions: the whole run outcome —
execution result, final memory, final message history and event trace
— is equal. -/
theorem C7_sync_async_equivalence (cfg : AgentConfig) (env : Env)
    (input : String) (mem : Memory)
    (hchat : env.achat = env.chat)
    (htools : ∀ s t, env.getTool s = some t → t.aexecute = t.execute) :
    arun cfg env input mem = run cfg env input mem := by
  rw [arun_eq_swap]
  have henv : env.swap = env := by
    obtain ⟨c, ac, gt, gp, jl⟩ := env
    simp only at hchat
    simp only [Env.swap]
    subst hchat
    have hT : (fun s => (gt s).map Tool.swap) = gt := by
      funext s
      cases hg : gt s with
      | none => rfl
      | some t =>
        obtain ⟨te, ta⟩ := t
        have h' : ta = te := htools s ⟨te, ta⟩ hg
        subst h'
        rfl
    rw [hT]
  rw [henv]

/-- C10: with `enable_memory = false`, neither `run` nor `arun` ever
mutates the Conversation Memory — the memory handed back equals the
memory handed in, whatever the model and tools do — and the first
model call receives the ad-hoc two-message context consisting of the
system message followed by the user message. -/
theorem C10_memory_disabled_frame (cfg : AgentConfig) (env : Env)
    (input : String) (mem : Memory) (h : cfg.enable_memory = false) :
    (run cfg env input mem).memory = mem ∧
    (arun cfg env input mem).memory = mem ∧
    (0 < cfg.max_iterations →
      (run cfg env input mem).events.head? =
        some (Event.modelCall [Message.system cfg.system_prompt, Message.user input]) ∧
      (arun cfg env input mem).events.head? =
        some (Event.modelCall [Message.system cfg.system_prompt, Message.user input])) := by
  have hmem0 : initMemory cfg input mem = mem := by simp [initMemory, h]
  have hmsgs0 : initMessages cfg input (initMemory cfg input mem) =
      [Message.system cfg.system_prompt, Message.user input] := by
    simp [initMessages, h]
  have hrun : run cfg env input mem =
      runLoop cfg env cfg.max_iterations.toNat 0 (initTools cfg env)
        (initMessages cfg input (initMemory cfg input mem)) []
        (initMemory cfg input mem) [] := rfl
  have harun : arun cfg env input mem =
      runLoop cfg env.swap cfg.max_iterations.toNat 0 (initTools cfg env.swap)
        (initMessages cfg input (initMemory cfg input mem)) []
        (initMemory cfg input mem) [] := by
    rw [arun_eq_swap]; rfl
  refine ⟨?_, ?_, ?_⟩
  · rw [hrun, runLoop_memory_frame cfg env h, hmem0]
  · rw [harun, runLoop_memory_frame cfg env.swap h, hmem0]
  · intro hN
    obtain ⟨k, hk⟩ : ∃ k, cfg.max_iterations.toNat = k + 1 :=
      ⟨cfg.max_iterations.toNat - 1, by omega⟩
    constructor
    · rw [hrun, hk]
      obtain ⟨t, ht⟩ := runLoop_succ_events cfg env k 0 (initTools cfg env)
        (initMessages cfg input (initMemory cfg input mem)) []
        (initMemory cfg input mem) []
      rw [ht, hmsgs0]
      simp
    · rw [harun, hk]
      obtain ⟨t, ht⟩ := runLoop_succ_events cfg env.swap k 0 (initTools cfg env.swap)
        (initMessages cfg input (initMemory cfg input mem)) []
        (initMemory cfg input mem) []
      rw [ht, hmsgs0]
      simp

/-- C8: the Execution Loop never branches on the representation of
tool-call payloads: replacing every (well-formed) payload in every
model response by its deep dict↔object flip — each nested dict becomes
the attribute-bearing object with the same fields, and vice versa —
leaves the entire outcome of `run` and of `arun` (execution result,
tool invocations, messages, memory, trace) unchanged. -/
theorem C8_payload_shape_independence (cfg : AgentConfig) (env : Env)
    (input : String) (mem : Memory)
    (hs : ∀ m t r, env.chat m t = Except.ok r → ∀ tc ∈ r.tool_calls, WFTC tc)
    (ha : ∀ m t r, env.achat m t = Except.ok r → ∀ tc ∈ r.tool_calls, WFTC tc) :
    run cfg env.flipPayloads input mem = run cfg env input mem ∧
    arun cfg env.flipPayloads input mem = arun cfg env input mem := by
  constructor
  · have h1 : run cfg env.flipPayloads input mem =
        runLoop cfg env.flipPayloads cfg.max_iterations.toNat 0 (initTools cfg env)
          (initMessages cfg input (initMemory cfg input mem)) []
          (initMemory cfg input mem) [] := rfl
    rw [h1, runLoop_flipPayloads cfg env hs]
    rfl
  · rw [arun_eq_swap, arun_eq_swap]
    have hswap : env.flipPayloads.swap = env.swap.flipPayloads := rfl
    rw [hswap]
    have h2 : run cfg env.swap.flipPayloads input mem =
        runLoop cfg env.swap.flipPayloads cfg.max_iterations.toNat 0
          (initTools cfg env.swap)
          (initMessages cfg input (initMemory cfg input mem)) []
          (initMemory cfg input mem) [] := rfl
    rw [h2, runLoop_flipPayloads cfg env.swap (fun m t r hr => ha m t r hr)]
    rfl

/-- C5: evaluation of the executor at the failing input.  The claim
says an error in one tool call (unparseable arguments, here) never
aborts the run; the code has no per-tool-call exception handling, so
the `json.loads` failure propagates to the outer handler: the run
terminates with a failed ExecutionResult carrying the parse error, an
empty log, and the executable second tool call of the same response is
never invoked (zero handler-invocation events). -/
theorem C5_tool_error_aborts_run :
    (run wCfg wEnvParse "go" wMem).result.success = false ∧
    (run wCfg wEnvParse "go" wMem).result.error =
      some "Expecting value: line 1 column 1 (char 0)" ∧
    (run wCfg wEnvParse "go" wMem).result.tool_calls = [] ∧
    (run wCfg wEnvParse "go" wMem).events.countP isToolExec = 0 ∧
    (run wCfg wEnvParse "go" wMem).result.iterations = 1 :=
  ⟨rfl, rfl, rfl, rfl, rfl⟩

/-! ### Closed instances (witnesses) -/

theorem C1_max_iterations_exhaustion_witness :
    (1 : Int) ≤ wCfg.max_iterations ∧
    (run wCfg wEnvLoop "go" wMem).result.success = false ∧
    (run wCfg wEnvLoop "go" wMem).result.error = some (maxIterMsg wCfg.max_iterations) ∧
    ((run wCfg wEnvLoop "go" wMem).result.iterations : Int) = wCfg.max_iterations ∧
    ((run wCfg wEnvLoop "go" wMem).events.countP isModelCall : Int) =
      wCfg.max_iterations ∧
    (run wCfg wEnvLoop "go" wMem).result.tool_calls.length =
      (run wCfg wEnvLoop "go" wMem).events.countP isToolExec := by
  refine ⟨by decide, C1_max_iterations_exhaustion wCfg wEnvLoop "go" wMem (by decide) ?_⟩
  intro msgs
  refine ⟨wRespTools, rfl, by simp [wRespTools], ?_⟩
  intro tc htc
  simp only [wRespTools, List.mem_singleton] at htc
  subst htc
  exact ⟨.vstr "\x7b\"x\":1\x7d", wOkResult, rfl⟩

theorem C2_single_call_success_witness :
    (0 : Int) < wCfg.max_iterations ∧
    run wCfg wEnvFinal "hello" wMem =
      { result := { success := true, output := "42", iterations := 1, tool_calls := []
                  , error := none
                  , metadata := [("finish_reason", wRespFinal.finish_reason)
                                , ("model", wRespFinal.model)] }
      , memory := if wCfg.enable_memory then
            (initMemory wCfg "hello" wMem).addAssistant "42"
          else initMemory wCfg "hello" wMem
      , messages := initMessages wCfg "hello" (initMemory wCfg "hello" wMem)
      , events := [Event.modelCall
          (initMessages wCfg "hello" (initMemory wCfg "hello" wMem))] } :=
  ⟨by decide,
   C2_single_call_success wCfg wEnvFinal "hello" wMem wRespFinal "42"
     (by decide) rfl rfl rfl⟩

theorem C3_tool_calls_in_order_witness :
    wPhase.failed = none ∧
    execToolCallsSync wCfg wEnvLoop [wTC] wPhase =
      { messages := wPhase.messages ++ [wTC].map (tcMsgD wEnvLoop Tool.execute)
      , log := wPhase.log ++ [wTC].map (tcLogD wEnvLoop Tool.execute)
      , memory := { window_size := wPhase.memory.window_size
                  , msgs := wPhase.memory.msgs ++
                      (if wCfg.enable_memory then
                        [wTC].map (tcMsgD wEnvLoop Tool.execute) else []) }
      , events := wPhase.events ++ [wTC].map (tcEvD wEnvLoop Tool.execute)
      , failed := none } ∧
    execToolCallsAsync wCfg wEnvLoop [wTC] wPhase =
      { messages := wPhase.messages ++ [wTC].map (tcMsgD wEnvLoop Tool.aexecute)
      , log := wPhase.log ++ [wTC].map (tcLogD wEnvLoop Tool.aexecute)
      , memory := { window_size := wPhase.memory.window_size
                  , msgs := wPhase.memory.msgs ++
                      (if wCfg.enable_memory then
                        [wTC].map (tcMsgD wEnvLoop Tool.aexecute) else []) }
      , events := wPhase.events ++ [wTC].map (tcEvD wEnvLoop Tool.aexecute)
      , failed := none } := by
  have hs : ∀ tc ∈ [wTC], ExecOkWith wEnvLoop Tool.execute tc := by
    intro tc htc
    simp only [List.mem_singleton] at htc
    subst htc
    exact ⟨.vstr "\x7b\"x\":1\x7d", wOkResult, rfl⟩
  have ha : ∀ tc ∈ [wTC], ExecOkWith wEnvLoop Tool.aexecute tc := by
    intro tc htc
    simp only [List.mem_singleton] at htc
    subst htc
    exact ⟨.vstr "\x7b\"x\":1\x7d", wOkResult, rfl⟩
  exact ⟨rfl, C3_tool_calls_in_order wCfg wEnvLoop [wTC] wPhase rfl hs ha⟩

theorem C4_tool_not_found_witness :
    loadsV wEnvLoop (getToolCallAttr wTCMissing "function.arguments") =
      .ok (.vstr "\x7b\x7d") ∧
    getToolV wEnvLoop (getToolCallAttr wTCMissing "function.name") = none ∧
    (notFoundResult (getToolCallAttr wTCMissing "function.name")).success = false ∧
    (notFoundResult (getToolCallAttr wTCMissing "function.name")).error =
      some (toolNotFoundMsg (pyStrV (getToolCallAttr wTCMissing "function.name"))) :=
  ⟨rfl, rfl,
   (C4_tool_not_found wCfg wEnvLoop wTCMissing [] wPhase (.vstr "\x7b\x7d") rfl rfl).1,
   (C4_tool_not_found wCfg wEnvLoop wTCMissing [] wPhase (.vstr "\x7b\x7d") rfl rfl).2.1⟩

theorem C6_model_error_terminates_witness :
    wEnvErr.chat [] none = .error "boom" ∧
    runLoop wCfg wEnvErr 1 0 none [] [] wMem [] =
      { result := { success := false, output := "", iterations := 1, tool_calls := []
                  , error := some "boom", metadata := [] }
      , memory := wMem, messages := []
      , events := [Event.modelCall []] } :=
  ⟨rfl, C6_model_error_terminates wCfg wEnvErr 0 0 none [] [] wMem [] "boom" rfl⟩

theorem C7_sync_async_equivalence_witness :
    wEnvLoop.achat = wEnvLoop.chat ∧
    arun wCfg wEnvLoop "go" wMem = run wCfg wEnvLoop "go" wMem := by
  refine ⟨rfl, C7_sync_async_equivalence wCfg wEnvLoop "go" wMem rfl ?_⟩
  intro s t ht
  by_cases hs : s = "add"
  · subst hs
    simp [wEnvLoop] at ht
    subst ht
    rfl
  · simp [wEnvLoop, hs] at ht

theorem C8_payload_shape_independence_witness :
    run wCfg wEnvLoop.flipPayloads "go" wMem = run wCfg wEnvLoop "go" wMem ∧
    arun wCfg wEnvLoop.flipPayloads "go" wMem = arun wCfg wEnvLoop "go" wMem := by
  have hwf : WFTC wTC :=
    ⟨⟨"call-1", rfl⟩, ⟨"add", rfl⟩, ⟨"\x7b\"x\":1\x7d", rfl⟩
    , Or.inl ⟨"function", rfl⟩⟩
  have hresp : ∀ (m : List Message) (t : Option (List String)) (r : ModelResponse),
      wEnvLoop.chat m t = Except.ok r → ∀ tc ∈ r.tool_calls, WFTC tc := by
    intro m t r hr tc htc
    have hr' : wRespTools = r := by
      simpa [wEnvLoop] using hr
    subst hr'
    simp only [wRespTools, List.mem_singleton] at htc
    subst htc
    exact hwf
  exact C8_payload_shape_independence wCfg wEnvLoop "go" wMem
    (fun m t r hr => hresp m t r hr) (fun m t r hr => hresp m t r hr)

theorem C9_nonpositive_max_iterations_witness :
    wCfgNeg.max_iterations ≤ 0 ∧
    run wCfgNeg wEnvLoop "go" wMem =
      { result := { success := false, output := "", iterations := 0, tool_calls := []
                  , error := some (maxIterMsg wCfgNeg.max_iterations), metadata := [] }
      , memory := initMemory wCfgNeg "go" wMem
      , messages := initMessages wCfgNeg "go" (initMemory wCfgNeg "go" wMem)
      , events := [] } ∧
    arun wCfgNeg wEnvLoop "go" wMem =
      { result := { success := false, output := "", iterations := 0, tool_calls := []
                  , error := some (maxIterMsg wCfgNeg.max_iterations), metadata := [] }
      , memory := initMemory wCfgNeg "go" wMem
      , messages := initMessages wCfgNeg "go" (initMemory wCfgNeg "go" wMem)
      , events := [] } :=
  ⟨by decide,
   (C9_nonpositive_max_iterations wCfgNeg wEnvLoop "go" wMem (by decide)).1,
   (C9_nonpositive_max_iterations wCfgNeg wEnvLoop "go" wMem (by decide)).2⟩

theorem C10_memory_disabled_frame_witness :
    wCfgNoMem.enable_memory = false ∧
    (run wCfgNoMem wEnvFinal "hi" wMem).memory = wMem ∧
    (arun wCfgNoMem wEnvFinal "hi" wMem).memory = wMem ∧
    (0 < wCfgNoMem.max_iterations →
      (run wCfgNoMem wEnvFinal "hi" wMem).events.head? =
        some (Event.modelCall [Message.system wCfgNoMem.system_prompt
          , Message.user "hi"]) ∧
      (arun wCfgNoMem wEnvFinal "hi" wMem).events.head? =
        some (Event.modelCall [Message.system wCfgNoMem.system_prompt
          , Message.user "hi"])) :=
  ⟨rfl, C10_memory_disabled_frame wCfgNoMem wEnvFinal "hi" wMem rfl⟩
